import Mathlib

/-!
Verification of the custls fingerprint-customization layer.

This file gives a shallow embedding, in Lean 4, of the parts of the custls
source (a ClientHello fingerprint-simulation layer for a TLS client) that the
frozen claims talk about, and settles each claim against that embedding.

Conventions of the embedding:
- Rust machine integers become `Nat`; truncating casts are explicit `% 2 ^ w`.
- Rust byte buffers (`Vec<u8>`) become `List Nat` whose entries are byte values.
- `f64` scores that the code only ever builds as exact ratios are modelled as
  `ℚ`, so comparisons between stored scores are exact.
- `BTreeMap` becomes an association list kept sorted by key; its first key is
  the map's minimum key, exactly as `BTreeMap::keys().next()`.
- Fallible Rust functions return `Option` or `Except`.
- The `Instant` clock becomes a logical counter threaded through operations.
-/

/-! ## Protocol versions and errors (src/custls/security.rs) -/

/-- Protocol versions relevant to downgrade validation; `other` stands for the
remaining variants of the source enum, which the validator never inspects. -/
inductive ProtocolVersion where
  | TLSv1_0
  | TLSv1_1
  | TLSv1_2
  | TLSv1_3
  | other
  deriving DecidableEq, Repr

/-- The two `PeerMisbehaved` kinds that `validate_downgrade_protection` can
produce. -/
inductive PeerMisbehavedKind where
  | IllegalTlsInnerPlaintext
  | AttemptedDowngradeToTls12WhenTls13IsSupported
  deriving DecidableEq, Repr

/-- The slice of the host error enum reachable from the validator. -/
inductive RustlsError where
  | PeerMisbehaved (kind : PeerMisbehavedKind)
  deriving DecidableEq, Repr

/-- RFC 8446 downgrade canary for TLS 1.2 (security.rs `TLS12_DOWNGRADE_CANARY`). -/
def TLS12_DOWNGRADE_CANARY : List Nat := [0x44, 0x4F, 0x57, 0x4E, 0x47, 0x52, 0x44, 0x01]

/-- RFC 8446 downgrade canary for TLS 1.1 and below (security.rs `TLS11_DOWNGRADE_CANARY`). -/
def TLS11_DOWNGRADE_CANARY : List Nat := [0x44, 0x4F, 0x57, 0x4E, 0x47, 0x52, 0x44, 0x00]

/-- Embedding of `validate_downgrade_protection` (security.rs lines 104-144).
The source takes `server_random: &[u8]` and the two protocol versions and
checks the RFC 8446 downgrade canary; `server_random[24..32]` is modelled as
`(server_random.drop 24).take 8`. -/
def validate_downgrade_protection (server_random : List Nat)
    (expected_version negotiated_version : ProtocolVersion) :
    Except RustlsError Unit :=
  if expected_version ≠ ProtocolVersion.TLSv1_3 then
    Except.ok ()
  else if server_random.length ≠ 32 then
    Except.error (RustlsError.PeerMisbehaved PeerMisbehavedKind.IllegalTlsInnerPlaintext)
  else
    let last_8_bytes := (server_random.drop 24).take 8
    if negotiated_version = ProtocolVersion.TLSv1_2 ∧ last_8_bytes = TLS12_DOWNGRADE_CANARY then
      Except.error (RustlsError.PeerMisbehaved
        PeerMisbehavedKind.AttemptedDowngradeToTls12WhenTls13IsSupported)
    else if (negotiated_version = ProtocolVersion.TLSv1_1 ∨
             negotiated_version = ProtocolVersion.TLSv1_0) ∧
            last_8_bytes = TLS11_DOWNGRADE_CANARY then
      Except.error (RustlsError.PeerMisbehaved
        PeerMisbehavedKind.AttemptedDowngradeToTls12WhenTls13IsSupported)
    else
      Except.ok ()

/-- Outcome classes named by the spec's rule list for the validator. -/
inductive DowngradeOutcome where
  | ok
  | peerMisbehaved
  | downgradeDetected
  deriving DecidableEq, Repr

/-- Classify a validator result into the spec's outcome classes: the
wrong-length error is the "peer misbehaved" outcome and the canary error is
the "downgrade detected" outcome. -/
def downgradeOutcomeOf (r : Except RustlsError Unit) : DowngradeOutcome :=
  match r with
  | Except.ok () => DowngradeOutcome.ok
  | Except.error (RustlsError.PeerMisbehaved PeerMisbehavedKind.IllegalTlsInnerPlaintext) =>
      DowngradeOutcome.peerMisbehaved
  | Except.error (RustlsError.PeerMisbehaved
      PeerMisbehavedKind.AttemptedDowngradeToTls12WhenTls13IsSupported) =>
      DowngradeOutcome.downgradeDetected

/-- Modelled from the spec's rule list for claim C1 (spec §4.6): this second
definition follows the claim's words — last 8 bytes taken from the end of the
random — and is compared with the source-derived validator. -/
def downgradeSpecRules (server_random : List Nat)
    (expected_version negotiated_version : ProtocolVersion) : DowngradeOutcome :=
  if expected_version ≠ ProtocolVersion.TLSv1_3 then
    DowngradeOutcome.ok
  else if server_random.length ≠ 32 then
    DowngradeOutcome.peerMisbehaved
  else
    let last8 := server_random.drop (server_random.length - 8)
    if (negotiated_version = ProtocolVersion.TLSv1_2 ∧ last8 = TLS12_DOWNGRADE_CANARY) ∨
       ((negotiated_version = ProtocolVersion.TLSv1_1 ∨
         negotiated_version = ProtocolVersion.TLSv1_0) ∧ last8 = TLS11_DOWNGRADE_CANARY) then
      DowngradeOutcome.downgradeDetected
    else
      DowngradeOutcome.ok

/-- Claim C1: `validate_downgrade_protection` obeys the spec's rule list for
every input — if `expected_version` is not TLS 1.3 it returns ok regardless of
the server random; otherwise a server random of length other than 32 gives a
peer-misbehaved error; otherwise the two canary rules give a
downgrade-detected error; in every other case it returns ok. -/
theorem C1_validate_downgrade_protection_matches_spec
    (server_random : List Nat) (expected_version negotiated_version : ProtocolVersion) :
    downgradeOutcomeOf
        (validate_downgrade_protection server_random expected_version negotiated_version) =
      downgradeSpecRules server_random expected_version negotiated_version := by
  unfold validate_downgrade_protection downgradeSpecRules
  by_cases hexp : expected_version = ProtocolVersion.TLSv1_3
  · subst hexp
    by_cases hlen : server_random.length = 32
    · have h8 : (server_random.drop 24).length = 8 := by
        rw [List.length_drop, hlen]
      have htake : (server_random.drop 24).take 8 = server_random.drop 24 := by
        conv_lhs => rw [← h8]
        exact List.take_length _
      have hdrop : server_random.drop (server_random.length - 8) = server_random.drop 24 := by
        rw [hlen]
      simp only [hlen, htake, hdrop]
      cases negotiated_version <;>
        simp [downgradeOutcomeOf] <;> split_ifs <;> simp_all [downgradeOutcomeOf]
    · simp [hlen, downgradeOutcomeOf]
  · simp [hexp, downgradeOutcomeOf]

/-- Witness for C1 at a concrete input: the canary tail with TLS 1.2
negotiated while expecting TLS 1.3 classifies as downgrade-detected on both
sides. -/
theorem C1_validate_downgrade_protection_matches_spec_witness :
    downgradeOutcomeOf
        (validate_downgrade_protection
          (List.replicate 24 0 ++ TLS12_DOWNGRADE_CANARY)
          ProtocolVersion.TLSv1_3 ProtocolVersion.TLSv1_2) =
      downgradeSpecRules (List.replicate 24 0 ++ TLS12_DOWNGRADE_CANARY)
        ProtocolVersion.TLSv1_3 ProtocolVersion.TLSv1_2 :=
  C1_validate_downgrade_protection_matches_spec _ _ _

/-! ## Extension types and naturalness filter (rustls/src/custls/templates.rs) -/

/-- Extension types appearing in the custls templates; `Unknown` stands for
the open-ended remainder of the source enum. `Vec::contains` is modelled as
decidable list membership throughout. -/
inductive ExtensionType where
  | ServerName
  | ExtendedMasterSecret
  | RenegotiationInfo
  | SupportedVersions
  | EllipticCurves
  | ECPointFormats
  | SessionTicket
  | ALProtocolNegotiation
  | StatusRequest
  | SignatureAlgorithms
  | SCT
  | KeyShare
  | PSKKeyExchangeModes
  | CompressCertificate
  | Padding
  | PreSharedKey
  | Unknown (code : Nat)
  deriving DecidableEq, Repr

/-- A set of extension types for naturalness filtering (templates.rs
`ExtensionSet`). -/
structure ExtensionSet where
  extensions : List ExtensionType
  deriving DecidableEq, Repr

/-- Embedding of `ExtensionSet::is_subset_of` (templates.rs lines 239-244). -/
def ExtensionSet.is_subset_of (s : ExtensionSet) (extensions : List ExtensionType) : Bool :=
  s.extensions.all (fun ext => decide (ext ∈ extensions))

/-- The naturalness filter (templates.rs `NaturalnessFilter`); the source's
`HashMap` of dependencies becomes an association list, which only feeds a
conjunction over its entries, so iteration order is irrelevant. -/
structure NaturalnessFilter where
  blacklist : List ExtensionSet
  whitelist : List ExtensionSet
  dependencies : List (ExtensionType × List ExtensionType)
  deriving DecidableEq, Repr

/-- Embedding of `NaturalnessFilter::is_natural` (templates.rs lines
262-295); the source's early-return loops become `List.all`. -/
def NaturalnessFilter.is_natural (f : NaturalnessFilter)
    (extensions : List ExtensionType) : Bool :=
  (f.blacklist.all fun forbidden => !(forbidden.is_subset_of extensions)) &&
  (f.whitelist.all fun required =>
    !(required.extensions.any fun ext => decide (ext ∈ extensions)) ||
      required.is_subset_of extensions) &&
  (f.dependencies.all fun entry =>
    !(decide (entry.1 ∈ extensions)) || entry.2.all fun dep => decide (dep ∈ extensions))

/-- Claim C7: `is_natural(exts)` returns false exactly when some blacklist set
is a subset of `exts`, or some whitelist set has a member in `exts` but not
all of its members in `exts`, or some dependency key is in `exts` while one of
its required extensions is not; in all other cases it returns true. Purity is
inherent: the embedding is a function of its arguments only. -/
theorem C7_is_natural_false_iff (f : NaturalnessFilter) (exts : List ExtensionType) :
    f.is_natural exts = false ↔
      (∃ s ∈ f.blacklist, ∀ e ∈ s.extensions, e ∈ exts) ∨
      (∃ s ∈ f.whitelist, (∃ e ∈ s.extensions, e ∈ exts) ∧
        ∃ e ∈ s.extensions, e ∉ exts) ∨
      (∃ p ∈ f.dependencies, p.1 ∈ exts ∧ ∃ d ∈ p.2, d ∉ exts) := by
  simp only [NaturalnessFilter.is_natural, ExtensionSet.is_subset_of,
    Bool.and_eq_false_iff, List.all_eq_false, List.all_eq_true,
    List.any_eq_true, List.any_eq_false, Bool.or_eq_false_iff,
    Bool.not_eq_true', Bool.not_eq_false', Bool.not_eq_true, Bool.not_eq_false,
    decide_eq_true_eq, decide_eq_false_iff_not, not_not]
  push_neg
  rw [or_assoc]

/-- Witness for C7 at a concrete input: a filter blacklisting the pair
(StatusRequest, SCT) rejects a list containing both. -/
theorem C7_is_natural_false_iff_witness :
    NaturalnessFilter.is_natural
        ⟨[⟨[ExtensionType.StatusRequest, ExtensionType.SCT]⟩], [], []⟩
        [ExtensionType.SCT, ExtensionType.StatusRequest] = false :=
  (C7_is_natural_false_iff
      ⟨[⟨[ExtensionType.StatusRequest, ExtensionType.SCT]⟩], [], []⟩
      [ExtensionType.SCT, ExtensionType.StatusRequest]).mpr
    (Or.inl ⟨⟨[ExtensionType.StatusRequest, ExtensionType.SCT]⟩, by simp, by decide⟩)

/-! ## Extension-order validation (rustls/src/custls/utils.rs) and the
Firefox template's extension order (rustls/src/custls/templates.rs) -/

/-- The custls error variant produced by `validate_extension_order`. -/
inductive CustlsError where
  | ValidationError (msg : String)
  deriving DecidableEq, Repr

/-- Index of the first element equal to `x`, mirroring the source's inner
loop `for j in (i + 1)..extensions.len()` of `validate_extension_order`. -/
def firstIdxEq (x : ExtensionType) : List ExtensionType → Option Nat
  | [] => none
  | y :: rest => if y = x then some 0 else (firstIdxEq x rest).map (fun k => k + 1)

/-- First pair of positions `(i, j)` with `i < j` holding equal extensions,
in the order the source's nested loops visit them (utils.rs lines 410-418). -/
def findDupIndices : List ExtensionType → Nat → Option (Nat × Nat)
  | [], _ => none
  | x :: rest, i =>
    match firstIdxEq x rest with
    | some k => some (i, i + 1 + k)
    | none => findDupIndices rest (i + 1)

/-- Embedding of `validate_extension_order` (utils.rs lines 393-421): empty
lists pass; a present PSK extension must be last; then the pairwise duplicate
scan runs. -/
def validate_extension_order (extensions : List ExtensionType) : Except CustlsError Unit :=
  if extensions.isEmpty then Except.ok ()
  else
    let has_psk := extensions.any fun e => decide (e = ExtensionType.PreSharedKey)
    let psk_violation :=
      match extensions.getLast? with
      | some last => has_psk && !(decide (last = ExtensionType.PreSharedKey))
      | none => false
    if psk_violation then
      Except.error (CustlsError.ValidationError "pre_shared_key extension must be last")
    else
      match findDupIndices extensions 0 with
      | some (i, j) =>
          Except.error (CustlsError.ValidationError
            ("duplicate extension at positions " ++ toString i ++ " and " ++ toString j))
      | none => Except.ok ()

/-- The `extension_order` field of the built-in `firefox_135()` template
(templates.rs lines 547-562), which repeats `SupportedVersions` at positions
3 and 9. -/
def firefox_135_extension_order : List ExtensionType :=
  [ExtensionType.ServerName, ExtensionType.ExtendedMasterSecret,
   ExtensionType.RenegotiationInfo, ExtensionType.SupportedVersions,
   ExtensionType.EllipticCurves, ExtensionType.SessionTicket,
   ExtensionType.ALProtocolNegotiation, ExtensionType.StatusRequest,
   ExtensionType.KeyShare, ExtensionType.SupportedVersions,
   ExtensionType.SignatureAlgorithms, ExtensionType.PSKKeyExchangeModes,
   ExtensionType.ECPointFormats, ExtensionType.Padding]

/-- Helper: the first-equal-index scan finds nothing exactly when the element
is absent. -/
theorem firstIdxEq_eq_none_iff (x : ExtensionType) (l : List ExtensionType) :
    firstIdxEq x l = none ↔ x ∉ l := by
  induction l with
  | nil => simp [firstIdxEq]
  | cons y rest ih =>
    by_cases h : y = x
    · simp [firstIdxEq, h]
    · simp [firstIdxEq, h, ih, Ne.symm h]

/-- Helper: the duplicate scan finds nothing exactly when the list has no
duplicates. -/
theorem findDupIndices_eq_none_iff (l : List ExtensionType) (i : Nat) :
    findDupIndices l i = none ↔ l.Nodup := by
  induction l generalizing i with
  | nil => simp [findDupIndices]
  | cons x rest ih =>
    rw [List.nodup_cons]
    cases h : firstIdxEq x rest with
    | some k =>
      have hx : x ∈ rest := by
        by_contra hnot
        rw [← firstIdxEq_eq_none_iff] at hnot
        rw [h] at hnot
        exact Option.noConfusion hnot
      simp [findDupIndices, h, hx]
    | none =>
      have hx : x ∉ rest := (firstIdxEq_eq_none_iff x rest).mp h
      simp [findDupIndices, h, hx, ih]

/-- Helper: the exact acceptance condition of `validate_extension_order`. -/
theorem validate_extension_order_ok_iff (exts : List ExtensionType) :
    validate_extension_order exts = Except.ok () ↔
      exts.Nodup ∧
        (ExtensionType.PreSharedKey ∈ exts →
          exts.getLast? = some ExtensionType.PreSharedKey) := by
  match exts with
  | [] => simp [validate_extension_order]
  | x :: rest =>
    cases hlast : (x :: rest).getLast? with
    | none =>
      rw [List.getLast?_eq_none_iff] at hlast
      exact absurd hlast (by simp)
    | some last =>
      simp only [validate_extension_order, List.isEmpty_cons, hlast]
      by_cases hv : (((x :: rest).any fun e => decide (e = ExtensionType.PreSharedKey)) &&
          !(decide (last = ExtensionType.PreSharedKey))) = true
      · rw [if_pos hv]
        constructor
        · intro h
          exact Except.noConfusion h
        · rintro ⟨-, hp⟩
          simp only [Bool.and_eq_true, List.any_eq_true, decide_eq_true_eq,
            Bool.not_eq_true', decide_eq_false_iff_not] at hv
          obtain ⟨⟨e, he, hePSK⟩, hne⟩ := hv
          subst hePSK
          exact absurd (Option.some.inj (hp he)) hne
      · rw [if_neg hv]
        cases hdup : findDupIndices (x :: rest) 0 with
        | some p =>
          obtain ⟨i, j⟩ := p
          constructor
          · intro h
            exact Except.noConfusion h
          · rintro ⟨hnd, -⟩
            rw [← findDupIndices_eq_none_iff _ 0] at hnd
            rw [hdup] at hnd
            exact Option.noConfusion hnd
        | none =>
          constructor
          · intro _
            refine ⟨(findDupIndices_eq_none_iff _ 0).mp hdup, fun hmem => ?_⟩
            simp only [Bool.and_eq_true, not_and, List.any_eq_true, decide_eq_true_eq,
              Bool.not_eq_true', decide_eq_false_iff_not, not_not] at hv
            exact congrArg some (hv ⟨ExtensionType.PreSharedKey, hmem, rfl⟩)
          · intro _
            rfl

/-- Claim C9: `validate_extension_order` returns Ok exactly when the list has
no duplicate extension type and, if PreSharedKey is present, it is the last
element; consequently the built-in Firefox template's extension order, which
contains SupportedVersions twice (positions 3 and 9), is rejected with a
ValidationError. -/
theorem C9_validate_extension_order_ok_iff_and_firefox_rejected :
    (∀ exts : List ExtensionType,
      validate_extension_order exts = Except.ok () ↔
        exts.Nodup ∧
          (ExtensionType.PreSharedKey ∈ exts →
            exts.getLast? = some ExtensionType.PreSharedKey)) ∧
    validate_extension_order firefox_135_extension_order =
      Except.error (CustlsError.ValidationError
        "duplicate extension at positions 3 and 9") :=
  ⟨validate_extension_order_ok_iff, rfl⟩

/-- Witness for C9 at concrete inputs: a short duplicate-free PSK-last list is
accepted, via the theorem's acceptance condition. -/
theorem C9_validate_extension_order_ok_iff_and_firefox_rejected_witness :
    validate_extension_order
        [ExtensionType.ServerName, ExtensionType.KeyShare, ExtensionType.PreSharedKey] =
      Except.ok () :=
  (C9_validate_extension_order_ok_iff_and_firefox_rejected.1
      [ExtensionType.ServerName, ExtensionType.KeyShare, ExtensionType.PreSharedKey]).mpr
    (by constructor
        · decide
        · intro _
          rfl)

/-! ## Template rotation (src/custls/orchestrator.rs, src/custls/mod.rs) -/

/-- Browser template presets (mod.rs `BrowserTemplate`); the payload of the
`Custom` variant plays no part in rotation selection and is elided. -/
inductive BrowserTemplate where
  | Chrome130
  | Firefox135
  | Safari17
  | Edge130
  | Custom
  deriving DecidableEq, Repr

/-- Template rotation policies (mod.rs `TemplateRotationPolicy`). -/
inductive TemplateRotationPolicy where
  | None
  | RoundRobin
  | Random
  | WeightedRandom
  deriving DecidableEq, Repr

/-- The fields of `CustlsConfig` that `select_rotated_template` reads; the
remaining configuration fields are elided. -/
structure CustlsConfig where
  template : Option BrowserTemplate
  rotation_policy : TemplateRotationPolicy
  rotation_templates : List BrowserTemplate
  deriving DecidableEq, Repr

/-- Modulus of the 64-bit `usize` connection counter. -/
def USIZE_MOD : Nat := 2 ^ 64

/-- The default rotation list used when `rotation_templates` is empty
(orchestrator.rs lines 250-259). -/
def default_rotation_templates : List BrowserTemplate :=
  [BrowserTemplate.Chrome130, BrowserTemplate.Firefox135,
   BrowserTemplate.Safari17, BrowserTemplate.Edge130]

/-- Embedding of `DefaultCustomizer::select_rotated_template` (orchestrator.rs
lines 243-314). The connection counter is passed in and returned explicitly:
the source reads `current`, stores `current.wrapping_add(1)`, and selects with
`current`. `templates[index]` is modelled as `getD` with an arbitrary default;
every index used is below `templates.length`, so the default is never read.
The multiplications in the `Random` and `WeightedRandom` arms are `usize`
multiplications, hence reduced modulo `2 ^ 64`. -/
def select_rotated_template (config : CustlsConfig) (counter : Nat) :
    Option BrowserTemplate × Nat :=
  if config.rotation_policy = TemplateRotationPolicy.None then
    (config.template, counter)
  else
    let templates :=
      if config.rotation_templates.isEmpty then default_rotation_templates
      else config.rotation_templates
    if templates.isEmpty then (none, counter)
    else
      let current := counter
      let counter2 := (counter + 1) % USIZE_MOD
      match config.rotation_policy with
      | TemplateRotationPolicy.None => (config.template, counter2)
      | TemplateRotationPolicy.RoundRobin =>
          (some (templates.getD (current % templates.length) BrowserTemplate.Chrome130),
           counter2)
      | TemplateRotationPolicy.Random =>
          (some (templates.getD (current * 2654435761 % USIZE_MOD % templates.length)
            BrowserTemplate.Chrome130), counter2)
      | TemplateRotationPolicy.WeightedRandom =>
          let weight := current * 2654435761 % USIZE_MOD % 100
          let index :=
            if weight < 40 then
              ((templates.findIdx? fun t => decide (t = BrowserTemplate.Chrome130)).getD 0)
            else if weight < 65 then
              ((templates.findIdx? fun t => decide (t = BrowserTemplate.Firefox135)).getD
                (1 % templates.length))
            else if weight < 85 then
              ((templates.findIdx? fun t => decide (t = BrowserTemplate.Safari17)).getD
                (2 % templates.length))
            else
              ((templates.findIdx? fun t => decide (t = BrowserTemplate.Edge130)).getD
                (3 % templates.length))
          (some (templates.getD index BrowserTemplate.Chrome130), counter2)

/-- Successive phase-1 selections: `on_config_resolve` (orchestrator.rs lines
637-661) calls `select_rotated_template` once per connection when the rotation
policy is not `None`; this iterates it, threading the connection counter. -/
def selectionsFrom (config : CustlsConfig) : Nat → Nat → List (Option BrowserTemplate)
  | _, 0 => []
  | counter, n + 1 =>
    let r := select_rotated_template config counter
    r.1 :: selectionsFrom config r.2 n

/-- Claim C8: with rotation policy RoundRobin and rotation list
[Chrome130, Firefox135], four successive phase-1 selections on a fresh
customizer (counter 0) yield Chrome, Firefox, Chrome, Firefox in order; and in
general RoundRobin selection returns the template at index
(connection counter mod list length) and increments the counter by one. -/
theorem C8_round_robin_rotation :
    (selectionsFrom
        ⟨none, TemplateRotationPolicy.RoundRobin,
         [BrowserTemplate.Chrome130, BrowserTemplate.Firefox135]⟩ 0 4 =
      [some BrowserTemplate.Chrome130, some BrowserTemplate.Firefox135,
       some BrowserTemplate.Chrome130, some BrowserTemplate.Firefox135]) ∧
    (∀ (config : CustlsConfig) (counter : Nat),
      config.rotation_policy = TemplateRotationPolicy.RoundRobin →
      counter + 1 < USIZE_MOD →
      select_rotated_template config counter =
        (some ((if config.rotation_templates.isEmpty then default_rotation_templates
                else config.rotation_templates).getD
            (counter %
              (if config.rotation_templates.isEmpty then default_rotation_templates
               else config.rotation_templates).length)
            BrowserTemplate.Chrome130),
         counter + 1)) := by
  constructor
  · rfl
  · intro config counter hpol hlt
    have hnone : ¬ config.rotation_policy = TemplateRotationPolicy.None := by
      rw [hpol]
      exact fun h => TemplateRotationPolicy.noConfusion h
    have hmod : (counter + 1) % USIZE_MOD = counter + 1 := Nat.mod_eq_of_lt hlt
    by_cases hemp : config.rotation_templates.isEmpty
    · simp only [select_rotated_template, if_neg hnone, hemp, if_true, hpol, hmod]
      rfl
    · simp only [select_rotated_template, if_neg hnone, hemp, if_false, hpol, hmod]
      have hFalse : config.rotation_templates.isEmpty = false := by
        simpa using hemp
      simp [hFalse]

/-- Witness for C8 at a concrete input: counter 5 over the two-template list
selects Firefox (5 mod 2 = 1) and stores counter 6. -/
theorem C8_round_robin_rotation_witness :
    select_rotated_template
        ⟨none, TemplateRotationPolicy.RoundRobin,
         [BrowserTemplate.Chrome130, BrowserTemplate.Firefox135]⟩ 5 =
      (some BrowserTemplate.Firefox135, 6) := by
  have h := C8_round_robin_rotation.2
    ⟨none, TemplateRotationPolicy.RoundRobin,
     [BrowserTemplate.Chrome130, BrowserTemplate.Firefox135]⟩ 5 rfl
    (by norm_num [USIZE_MOD])
  simpa using h

/-! ## Padding-length generation (src/custls/randomizer.rs) -/

/-- Randomization levels (mod.rs `RandomizationLevel`). -/
inductive RandomizationLevel where
  | None
  | Light
  | Medium
  | High
  deriving DecidableEq, Repr

/-- Padding distribution of a template (templates.rs `PaddingDistribution`);
the `f64` probabilities are modelled as `ℚ`. They are consumed only inside the
RNG-driven candidate sampling, which the padding embedding abstracts as an
oracle (see `generate_padding_len`). -/
structure PaddingDistribution where
  pmf : List (Nat × ℚ)
  min_length : Nat
  max_length : Nat
  power_of_2_bias : ℚ
  deriving DecidableEq, Repr

/-- The `u16::clamp` of the source: clamp `v` into `[lo, hi]`. -/
def clampNat (v lo hi : Nat) : Nat :=
  if v < lo then lo else if hi < v then hi else v

/-- The retry loop of `generate_padding_len` (randomizer.rs lines 379-420):
attempt `fuel` candidates starting at attempt index `i`; each candidate is
clamped into `[min_length, max_length]` and accepted when it is not in the
recent-padding list, mirroring `!previous_padding_lengths.contains(&clamped)`. -/
def tryPaddingAttempts (dist : PaddingDistribution) (previous : List Nat)
    (cand : Nat → Nat) : Nat → Nat → Option Nat
  | 0, _ => none
  | fuel + 1, i =>
    let clamped := clampNat (cand i) dist.min_length dist.max_length
    if clamped ∈ previous then tryPaddingAttempts dist previous cand fuel (i + 1)
    else some clamped

/-- The post-loop fallback of `generate_padding_len` (randomizer.rs lines
422-430): when every attempt was recently used, the source draws one further
uniform value `min_length + gen_range(0, range)` (a fresh RNG draw, modelled
by `fallbackDraw`; `gen_range(0, range) = draw % (range + 1)` for positive
range) and returns it clamped, without consulting the recent list. -/
def paddingFallback (dist : PaddingDistribution) (fallbackDraw : Nat) : Nat :=
  let range := dist.max_length - dist.min_length
  if range = 0 then dist.min_length
  else
    clampNat (dist.min_length + fallbackDraw % (range + 1)) dist.min_length dist.max_length

/-- Embedding of `BrowserRandomizer::generate_padding_len` (randomizer.rs
lines 358-431). The RNG-driven candidate computation of each loop iteration
(PMF inversion, or uniform draw with power-of-two snapping) produces some u16
raw length; that sampling consumes the private xorshift RNG and floating-point
comparisons, and is abstracted as the oracle `cand`, with `cand i` the raw
candidate of attempt `i`; `fallbackDraw` models the final `next_u64` draw of
the fallback path. Level `None` returns the first PMF entry (or 0) unclamped,
exactly as the source's early return. -/
def generate_padding_len (level : RandomizationLevel) (dist : PaddingDistribution)
    (previous_padding_lengths : List Nat) (cand : Nat → Nat) (fallbackDraw : Nat) : Nat :=
  if level = RandomizationLevel.None then
    ((dist.pmf.head?).map Prod.fst).getD 0
  else
    match tryPaddingAttempts dist previous_padding_lengths cand 5 0 with
    | some len => len
    | none => paddingFallback dist fallbackDraw

/-- Helper: clamping lands in the interval when it is nonempty. -/
theorem clampNat_bounds (v lo hi : Nat) (h : lo ≤ hi) :
    lo ≤ clampNat v lo hi ∧ clampNat v lo hi ≤ hi := by
  unfold clampNat
  split_ifs <;> omega

/-- Helper: the retry loop exhausts when every candidate is recently used. -/
theorem tryPaddingAttempts_eq_none (dist : PaddingDistribution) (prev : List Nat)
    (cand : Nat → Nat) :
    ∀ (fuel i : Nat),
      (∀ k, k < fuel → clampNat (cand (i + k)) dist.min_length dist.max_length ∈ prev) →
      tryPaddingAttempts dist prev cand fuel i = none := by
  intro fuel
  induction fuel with
  | zero => intro i _; rfl
  | succ n ih =>
    intro i h
    have h0 : clampNat (cand i) dist.min_length dist.max_length ∈ prev := by
      have := h 0 (by omega)
      simpa using this
    simp only [tryPaddingAttempts, h0, if_true]
    exact ih (i + 1) fun k hk => by
      have := h (k + 1) (by omega)
      have harith : i + (k + 1) = i + 1 + k := by omega
      rwa [harith] at this

/-- Helper: the retry loop returns the first candidate that is not recently
used. -/
theorem tryPaddingAttempts_first (dist : PaddingDistribution) (prev : List Nat)
    (cand : Nat → Nat) :
    ∀ (fuel i j : Nat), j < fuel →
      (∀ k, k < j → clampNat (cand (i + k)) dist.min_length dist.max_length ∈ prev) →
      clampNat (cand (i + j)) dist.min_length dist.max_length ∉ prev →
      tryPaddingAttempts dist prev cand fuel i =
        some (clampNat (cand (i + j)) dist.min_length dist.max_length) := by
  intro fuel
  induction fuel with
  | zero => intro i j hj; omega
  | succ n ih =>
    intro i j hj hbefore hfree
    match j with
    | 0 =>
      have h0 : clampNat (cand (i + 0)) dist.min_length dist.max_length ∉ prev := hfree
      simp only [Nat.add_zero] at h0
      simp only [tryPaddingAttempts, h0, if_false]
      simp
    | j' + 1 =>
      have h0 : clampNat (cand i) dist.min_length dist.max_length ∈ prev := by
        have := hbefore 0 (by omega)
        simpa using this
      simp only [tryPaddingAttempts, h0, if_true]
      have harith : i + (j' + 1) = i + 1 + j' := by omega
      rw [harith] at hfree
      rw [show i + (j' + 1) = i + 1 + j' from by omega]
      exact ih (i + 1) j' (by omega)
        (fun k hk => by
          have := hbefore (k + 1) (by omega)
          rwa [show i + (k + 1) = i + 1 + k from by omega] at this)
        hfree

/-- Helper: any accepted retry candidate lies in the clamp interval. -/
theorem tryPaddingAttempts_some_bounds (dist : PaddingDistribution) (prev : List Nat)
    (cand : Nat → Nat) (hminmax : dist.min_length ≤ dist.max_length) :
    ∀ (fuel i v : Nat), tryPaddingAttempts dist prev cand fuel i = some v →
      dist.min_length ≤ v ∧ v ≤ dist.max_length := by
  intro fuel
  induction fuel with
  | zero => intro i v h; exact Option.noConfusion h
  | succ n ih =>
    intro i v h
    by_cases hmem : clampNat (cand i) dist.min_length dist.max_length ∈ prev
    · simp only [tryPaddingAttempts, hmem, if_true] at h
      exact ih (i + 1) v h
    · simp only [tryPaddingAttempts, hmem, if_false] at h
      rw [← Option.some.inj h]
      exact clampNat_bounds _ _ _ hminmax

/-- Helper: the fallback value also lies in `[min_length, max_length]`. -/
theorem paddingFallback_bounds (dist : PaddingDistribution) (fallbackDraw : Nat)
    (hminmax : dist.min_length ≤ dist.max_length) :
    dist.min_length ≤ paddingFallback dist fallbackDraw ∧
      paddingFallback dist fallbackDraw ≤ dist.max_length := by
  unfold paddingFallback
  by_cases h : dist.max_length - dist.min_length = 0
  · simp [h]
    omega
  · simp only [h, if_false]
    exact clampNat_bounds _ _ _ hminmax

/-- Claim C6 as amended: with randomization on and `min ≤ max`, the returned
value always lies in `[min, max]`; the loop returns the first of its five
clamped candidates not in the recent-padding list; and when all five are
recently used the function returns one further freshly drawn uniform
candidate (`paddingFallback`), not the fifth candidate. -/
theorem C6_generate_padding_len_amended (level : RandomizationLevel)
    (dist : PaddingDistribution) (prev : List Nat) (cand : Nat → Nat)
    (fallbackDraw : Nat)
    (hlevel : level ≠ RandomizationLevel.None)
    (hminmax : dist.min_length ≤ dist.max_length) :
    (dist.min_length ≤ generate_padding_len level dist prev cand fallbackDraw ∧
      generate_padding_len level dist prev cand fallbackDraw ≤ dist.max_length) ∧
    (∀ i, i < 5 →
      (∀ j, j < i → clampNat (cand j) dist.min_length dist.max_length ∈ prev) →
      clampNat (cand i) dist.min_length dist.max_length ∉ prev →
      generate_padding_len level dist prev cand fallbackDraw =
        clampNat (cand i) dist.min_length dist.max_length) ∧
    ((∀ i, i < 5 → clampNat (cand i) dist.min_length dist.max_length ∈ prev) →
      generate_padding_len level dist prev cand fallbackDraw =
        paddingFallback dist fallbackDraw) := by
  refine ⟨?_, ?_, ?_⟩
  · unfold generate_padding_len
    rw [if_neg hlevel]
    cases htry : tryPaddingAttempts dist prev cand 5 0 with
    | some v =>
      simpa using tryPaddingAttempts_some_bounds dist prev cand hminmax 5 0 v htry
    | none =>
      simpa using paddingFallback_bounds dist fallbackDraw hminmax
  · intro i hi hbefore hfree
    unfold generate_padding_len
    rw [if_neg hlevel]
    have := tryPaddingAttempts_first dist prev cand 5 0 i hi
      (fun k hk => by simpa using hbefore k hk)
      (by simpa using hfree)
    simp only [Nat.zero_add] at this
    rw [this]
  · intro hall
    unfold generate_padding_len
    rw [if_neg hlevel]
    have := tryPaddingAttempts_eq_none dist prev cand 5 0
      (fun k hk => by simpa using hall k hk)
    rw [this]

/-- Counterexample for C6 as stated: with range `[0, 10]`, an empty PMF, all
of `0..10` recently used, candidates `0,1,2,3,4` (all recently used) and a
fallback draw of 7, the function returns 7, not the clamped fifth candidate 4:
it does not "accept the last candidate generated". -/
theorem C6_counterexample :
    ((List.range 5).all fun i =>
      decide (clampNat i 0 10 ∈ [0, 1, 2, 3, 4, 5, 6, 7, 8, 9, 10])) = true ∧
    generate_padding_len RandomizationLevel.Light ⟨[], 0, 10, 0⟩
        [0, 1, 2, 3, 4, 5, 6, 7, 8, 9, 10] (fun i => i) 7 = 7 ∧
    generate_padding_len RandomizationLevel.Light ⟨[], 0, 10, 0⟩
        [0, 1, 2, 3, 4, 5, 6, 7, 8, 9, 10] (fun i => i) 7 ≠
      clampNat ((fun i => i) 4) 0 10 :=
  ⟨by decide, by decide, by decide⟩

/-- Witness for C6 at a concrete input: level Light over `[0, 10]` with an
empty recent list keeps the result inside the range. -/
theorem C6_generate_padding_len_amended_witness :
    0 ≤ generate_padding_len RandomizationLevel.Light ⟨[], 0, 10, 0⟩ [] (fun _ => 3) 0 ∧
    generate_padding_len RandomizationLevel.Light ⟨[], 0, 10, 0⟩ [] (fun _ => 3) 0 ≤ 10 :=
  (C6_generate_padding_len_amended RandomizationLevel.Light ⟨[], 0, 10, 0⟩ []
    (fun _ => 3) 0 (by decide) (by decide)).1

/-! ## Wire extension codecs (src/custls/extensions.rs) -/

/-- Big-endian bytes of a `u16` cast, as `(n as u16).to_be_bytes()`. -/
def u16be (n : Nat) : List Nat := [n % 65536 / 256, n % 256]

/-- Reader step `u16::read`: consume two bytes as a big-endian u16
(`None` models `InvalidMessage::MissingData`). -/
def readU16 : List Nat → Option (Nat × List Nat)
  | a :: b :: rest => some (a * 256 + b, rest)
  | _ => none

/-- Reader step `u8::read`: consume one byte. -/
def readU8 : List Nat → Option (Nat × List Nat)
  | a :: rest => some (a, rest)
  | _ => none

/-- Reader step `Reader::sub(len)`: split off a `len`-byte sub-buffer. -/
def readSub (len : Nat) (bytes : List Nat) : Option (List Nat × List Nat) :=
  if len ≤ bytes.length then some (bytes.take len, bytes.drop len) else none

/-- Helper: reading back an emitted u16 length prefix. -/
theorem readU16_u16be (n : Nat) (tail : List Nat) :
    readU16 (u16be n ++ tail) = some (n % 65536, tail) := by
  simp only [u16be, List.cons_append, List.nil_append, readU16]
  congr 1
  congr 1
  omega

/-- ApplicationSettings extension value (extensions.rs lines 26-30). -/
structure ApplicationSettingsExtension where
  protocols : List (List Nat)
  deriving DecidableEq, Repr

/-- Embedding of `ApplicationSettingsExtension::encode` (extensions.rs lines
47-61): each protocol is prefixed with `protocol.len() as u8`, the whole body
with `inner.len() as u16` big-endian. -/
def ApplicationSettingsExtension.encode (x : ApplicationSettingsExtension) : List Nat :=
  let inner := (x.protocols.map fun p => p.length % 256 :: p).flatten
  u16be inner.length ++ inner

/-- The decode loop of ApplicationSettings (extensions.rs lines 68-77): read
a u8 protocol length, take that many bytes, until the sub-buffer is empty. -/
def parseProtocols : List Nat → Option (List (List Nat))
  | [] => some []
  | l :: rest =>
    if l ≤ rest.length then
      match parseProtocols (rest.drop l) with
      | some ps => some (rest.take l :: ps)
      | none => none
    else none
termination_by bytes => bytes.length
decreasing_by
  simp only [List.length_drop, List.length_cons]
  omega

/-- Embedding of `ApplicationSettingsExtension::read` (extensions.rs lines
63-80). -/
def ApplicationSettingsExtension.read (bytes : List Nat) :
    Option ApplicationSettingsExtension :=
  match readU16 bytes with
  | none => none
  | some (len, rest) =>
    match readSub len rest with
    | none => none
    | some (sub, _) =>
      match parseProtocols sub with
      | some ps => some ⟨ps⟩
      | none => none

/-- Helper: the protocol loop decodes its own encoding when every protocol
fits the u8 length prefix. -/
theorem parseProtocols_encode (ps : List (List Nat)) (h : ∀ p ∈ ps, p.length ≤ 255) :
    parseProtocols ((ps.map fun p => p.length % 256 :: p).flatten) = some ps := by
  induction ps with
  | nil => simp [parseProtocols]
  | cons p rest ih =>
    have hp : p.length % 256 = p.length :=
      Nat.mod_eq_of_lt (by have := h p (by simp); omega)
    have hrest := ih fun q hq => h q (by simp [hq])
    rw [List.map_cons, List.flatten_cons]
    rw [show (p.length % 256 :: p) ++ (rest.map fun q => q.length % 256 :: q).flatten =
        p.length % 256 :: (p ++ (rest.map fun q => q.length % 256 :: q).flatten) from rfl]
    rw [parseProtocols]
    rw [hp]
    rw [if_pos (by simp)]
    rw [List.drop_left, List.take_left, hrest]

/-- Helper: ApplicationSettings round trip under the length-prefix bounds. -/
theorem appsettings_round_trip (ps : List (List Nat))
    (h : ∀ p ∈ ps, p.length ≤ 255)
    (hlen : ((ps.map fun p => p.length % 256 :: p).flatten).length ≤ 65535) :
    ApplicationSettingsExtension.read (ApplicationSettingsExtension.encode ⟨ps⟩) =
      some ⟨ps⟩ := by
  have hmod : ((ps.map fun p => p.length % 256 :: p).flatten).length % 65536 =
      ((ps.map fun p => p.length % 256 :: p).flatten).length :=
    Nat.mod_eq_of_lt (by omega)
  simp only [ApplicationSettingsExtension.encode, ApplicationSettingsExtension.read,
    readU16_u16be, hmod, readSub, le_refl, if_true, ite_true, List.take_length,
    parseProtocols_encode ps h]

/-- DelegatedCredential extension value (extensions.rs lines 89-93); the
signature-scheme codepoints are their u16 values. -/
structure DelegatedCredentialExtension where
  signature_algorithms : List Nat
  deriving DecidableEq, Repr

/-- Embedding of `DelegatedCredentialExtension::encode` (extensions.rs lines
112-120): `(count * 2) as u16` prefix, then each scheme as big-endian u16. -/
def DelegatedCredentialExtension.encode (x : DelegatedCredentialExtension) : List Nat :=
  u16be (x.signature_algorithms.length * 2) ++ (x.signature_algorithms.map u16be).flatten

/-- The u16-codepoint decode loop shared by DelegatedCredential and
CompressCertificate (`while sub.any_left { X::read(&mut sub) }`). -/
def parseU16List : List Nat → Option (List Nat)
  | [] => some []
  | a :: b :: rest =>
    match parseU16List rest with
    | some vs => some ((a * 256 + b) :: vs)
    | none => none
  | _ => none

/-- Embedding of `DelegatedCredentialExtension::read` (extensions.rs lines
122-141), including the odd-length rejection. -/
def DelegatedCredentialExtension.read (bytes : List Nat) :
    Option DelegatedCredentialExtension :=
  match readU16 bytes with
  | none => none
  | some (len, rest) =>
    if len % 2 ≠ 0 then none
    else
      match readSub len rest with
      | none => none
      | some (sub, _) =>
        match parseU16List sub with
        | some vs => some ⟨vs⟩
        | none => none

/-- Helper: the u16 loop decodes its own encoding for in-range codepoints. -/
theorem parseU16List_encode (vs : List Nat) (h : ∀ v ∈ vs, v < 65536) :
    parseU16List ((vs.map u16be).flatten) = some vs := by
  induction vs with
  | nil => rfl
  | cons v rest ih =>
    have hrest := ih fun w hw => h w (by simp [hw])
    rw [List.map_cons, List.flatten_cons]
    rw [show u16be v ++ (rest.map u16be).flatten =
        v % 65536 / 256 :: (v % 256 :: (rest.map u16be).flatten) from by simp [u16be]]
    simp only [parseU16List, hrest]
    rw [show v % 65536 / 256 * 256 + v % 256 = v from by
      have := h v (by simp)
      omega]

/-- Helper: `n` encoded u16 values occupy `2 n` bytes. -/
theorem flatten_u16be_length (vs : List Nat) :
    ((vs.map u16be).flatten).length = vs.length * 2 := by
  induction vs with
  | nil => rfl
  | cons v rest ih => simp [u16be, ih]; omega

/-- Helper: DelegatedCredential round trip under the u16 length-prefix bound. -/
theorem delegated_round_trip (vs : List Nat) (hn : vs.length ≤ 32767)
    (h : ∀ v ∈ vs, v < 65536) :
    DelegatedCredentialExtension.read (DelegatedCredentialExtension.encode ⟨vs⟩) =
      some ⟨vs⟩ := by
  have hmod : vs.length * 2 % 65536 = vs.length * 2 := Nat.mod_eq_of_lt (by omega)
  have heven : ¬ vs.length * 2 % 2 ≠ 0 := by omega
  have hlen := flatten_u16be_length vs
  simp only [DelegatedCredentialExtension.encode, DelegatedCredentialExtension.read,
    readU16_u16be, hmod, if_neg heven, readSub, hlen, le_refl, if_true, ite_true]
  rw [show List.take (vs.length * 2) ((vs.map u16be).flatten) = (vs.map u16be).flatten from by
    rw [← hlen, List.take_length]]
  rw [parseU16List_encode vs h]

/-- CompressCertificate extension value (extensions.rs lines 150-153). -/
structure CompressCertificateExtension where
  algorithms : List Nat
  deriving DecidableEq, Repr

/-- Embedding of `CompressCertificateExtension::encode` (extensions.rs lines
171-178): `(count * 2) as u8` prefix, then each algorithm as big-endian u16. -/
def CompressCertificateExtension.encode (x : CompressCertificateExtension) : List Nat :=
  (x.algorithms.length * 2) % 256 :: (x.algorithms.map u16be).flatten

/-- Embedding of `CompressCertificateExtension::read` (extensions.rs lines
181-198). -/
def CompressCertificateExtension.read (bytes : List Nat) :
    Option CompressCertificateExtension :=
  match readU8 bytes with
  | none => none
  | some (len, rest) =>
    if len % 2 ≠ 0 then none
    else
      match readSub len rest with
      | none => none
      | some (sub, _) =>
        match parseU16List sub with
        | some vs => some ⟨vs⟩
        | none => none

/-- Helper: CompressCertificate round trip under the u8 length-prefix bound. -/
theorem compress_round_trip (vs : List Nat) (hn : vs.length ≤ 127)
    (h : ∀ v ∈ vs, v < 65536) :
    CompressCertificateExtension.read (CompressCertificateExtension.encode ⟨vs⟩) =
      some ⟨vs⟩ := by
  have hmod : vs.length * 2 % 256 = vs.length * 2 := Nat.mod_eq_of_lt (by omega)
  have heven : ¬ vs.length * 2 % 2 ≠ 0 := by omega
  have hlen := flatten_u16be_length vs
  simp only [CompressCertificateExtension.encode, CompressCertificateExtension.read,
    readU8, hmod, if_neg heven, readSub, hlen, le_refl, if_true, ite_true]
  rw [show List.take (vs.length * 2) ((vs.map u16be).flatten) = (vs.map u16be).flatten from by
    rw [← hlen, List.take_length]]
  rw [parseU16List_encode vs h]

/-- Padding extension value (extensions.rs lines 208-211). -/
structure PaddingExtension where
  length : Nat
  deriving DecidableEq, Repr

/-- Embedding of `PaddingExtension::encode` (extensions.rs lines 227-229):
append `length` zero bytes. -/
def PaddingExtension.encode (x : PaddingExtension) : List Nat :=
  List.replicate x.length 0

/-- Embedding of `PaddingExtension::read` (extensions.rs lines 232-238):
length is the remainder of the reader, cast `as u16`. -/
def PaddingExtension.read (bytes : List Nat) : Option PaddingExtension :=
  some ⟨bytes.length % 65536⟩

/-- Helper: Padding round trip on the u16 domain. -/
theorem padding_round_trip (n : Nat) (h : n < 65536) :
    PaddingExtension.read (PaddingExtension.encode ⟨n⟩) = some ⟨n⟩ := by
  simp [PaddingExtension.read, PaddingExtension.encode, Nat.mod_eq_of_lt h]

/-- StatusRequest (OCSP) extension value (extensions.rs lines 248-258). -/
structure StatusRequestExtension where
  status_type : Nat
  responder_id_list : List (List Nat)
  request_extensions : List Nat
  deriving DecidableEq, Repr

/-- Embedding of `StatusRequestExtension::encode` (extensions.rs lines
285-305): status type byte, u16-prefixed responder-id list whose items are
u16-length-prefixed, u16-prefixed request-extensions bytes. -/
def StatusRequestExtension.encode (x : StatusRequestExtension) : List Nat :=
  let responder_data := (x.responder_id_list.map fun id => u16be id.length ++ id).flatten
  x.status_type ::
    (u16be responder_data.length ++ responder_data ++
      (u16be x.request_extensions.length ++ x.request_extensions))

/-- The responder-id decode loop of StatusRequest (extensions.rs lines
316-322). -/
def parseResponderIds : List Nat → Option (List (List Nat))
  | [] => some []
  | a :: b :: rest =>
    let idLen := a * 256 + b
    if idLen ≤ rest.length then
      match parseResponderIds (rest.drop idLen) with
      | some ids => some (rest.take idLen :: ids)
      | none => none
    else none
  | _ => none
termination_by bytes => bytes.length
decreasing_by
  simp only [List.length_drop, List.length_cons]
  omega

/-- Embedding of `StatusRequestExtension::read` (extensions.rs lines
307-336). -/
def StatusRequestExtension.read (bytes : List Nat) : Option StatusRequestExtension :=
  match readU8 bytes with
  | none => none
  | some (status_type, rest) =>
    match readU16 rest with
    | none => none
    | some (rl, rest2) =>
      match readSub rl rest2 with
      | none => none
      | some (rsub, rest3) =>
        match parseResponderIds rsub with
        | none => none
        | some ids =>
          match readU16 rest3 with
          | none => none
          | some (el, rest4) =>
            match readSub el rest4 with
            | none => none
            | some (ext, _) => some ⟨status_type, ids, ext⟩

/-- Helper: the responder-id loop decodes its own encoding when every id fits
its u16 length prefix. -/
theorem parseResponderIds_encode (ids : List (List Nat))
    (h : ∀ id ∈ ids, id.length ≤ 65535) :
    parseResponderIds ((ids.map fun id => u16be id.length ++ id).flatten) = some ids := by
  induction ids with
  | nil =>
    rw [List.map_nil, List.flatten_nil, parseResponderIds.eq_def]
  | cons id rest ih =>
    have hid : id.length % 65536 = id.length :=
      Nat.mod_eq_of_lt (by have := h id (by simp); omega)
    have hrest := ih fun q hq => h q (by simp [hq])
    rw [List.map_cons, List.flatten_cons]
    rw [show (u16be id.length ++ id) ++ (rest.map fun q => u16be q.length ++ q).flatten =
        id.length % 65536 / 256 :: (id.length % 256 ::
          (id ++ (rest.map fun q => u16be q.length ++ q).flatten)) from by
      simp [u16be]]
    rw [parseResponderIds.eq_def]
    simp only []
    rw [show id.length % 65536 / 256 * 256 + id.length % 256 = id.length from by omega]
    rw [if_pos (by simp)]
    rw [List.drop_left, List.take_left, hrest]

/-- Helper: StatusRequest round trip under the length-prefix bounds. -/
theorem status_request_round_trip (st : Nat) (ids : List (List Nat)) (re : List Nat)
    (hid : ∀ id ∈ ids, id.length ≤ 65535)
    (hrd : ((ids.map fun id => u16be id.length ++ id).flatten).length ≤ 65535)
    (hre : re.length ≤ 65535) :
    StatusRequestExtension.read (StatusRequestExtension.encode ⟨st, ids, re⟩) =
      some ⟨st, ids, re⟩ := by
  have hmod1 : ((ids.map fun id => u16be id.length ++ id).flatten).length % 65536 =
      ((ids.map fun id => u16be id.length ++ id).flatten).length :=
    Nat.mod_eq_of_lt (by omega)
  have hmod2 : re.length % 65536 = re.length := Nat.mod_eq_of_lt (by omega)
  simp only [StatusRequestExtension.encode, StatusRequestExtension.read, readU8]
  rw [show (u16be ((ids.map fun id => u16be id.length ++ id).flatten).length ++
      (ids.map fun id => u16be id.length ++ id).flatten ++
      (u16be re.length ++ re)) =
      (u16be ((ids.map fun id => u16be id.length ++ id).flatten).length ++
      ((ids.map fun id => u16be id.length ++ id).flatten ++
      (u16be re.length ++ re))) from by rw [List.append_assoc]]
  rw [readU16_u16be, hmod1]
  simp only [readSub]
  rw [if_pos (by simp)]
  rw [List.take_left, List.drop_left]
  simp only []
  rw [parseResponderIds_encode ids hid]
  simp only []
  rw [readU16_u16be, hmod2]
  simp only [readSub]
  rw [if_pos (le_refl _), List.take_length]

/-- SCT extension value (extensions.rs lines 345-348): no payload, presence
is the signal. -/
structure SignedCertificateTimestampExtension where
  deriving DecidableEq, Repr

/-- Embedding of SCT `encode` (extensions.rs lines 364-366): empty. -/
def SignedCertificateTimestampExtension.encode
    (_ : SignedCertificateTimestampExtension) : List Nat := []

/-- Embedding of SCT `read` (extensions.rs lines 368-371). -/
def SignedCertificateTimestampExtension.read (_ : List Nat) :
    Option SignedCertificateTimestampExtension :=
  some ⟨⟩

/-- Helper: SCT round trip (trivially, both sides are empty). -/
theorem sct_round_trip :
    SignedCertificateTimestampExtension.read
      (SignedCertificateTimestampExtension.encode ⟨⟩) = some ⟨⟩ := rfl

/-- Helper: a buffer of `n` zero bytes parses as `n` empty protocols. -/
theorem parseProtocols_replicate_zero :
    ∀ n, parseProtocols (List.replicate n 0) = some (List.replicate n []) := by
  intro n
  induction n with
  | zero => simp [parseProtocols]
  | succ k ih =>
    rw [List.replicate_succ, parseProtocols]
    simp [ih, List.replicate_succ]

/-- Counterexample for C4 as stated: an ApplicationSettings value whose one
protocol is 256 bytes long does not round-trip: `protocol.len() as u8`
truncates 256 to 0, and the decoder reads back 257 empty protocols. -/
theorem C4_counterexample :
    ApplicationSettingsExtension.read
        (ApplicationSettingsExtension.encode ⟨[List.replicate 256 0]⟩) ≠
      some ⟨[List.replicate 256 0]⟩ := by
  have henc : ApplicationSettingsExtension.encode ⟨[List.replicate 256 0]⟩ =
      u16be 257 ++ List.replicate 257 0 := by
    unfold ApplicationSettingsExtension.encode
    simp only [List.map_cons, List.map_nil, List.flatten_cons, List.flatten_nil,
      List.append_nil, List.length_replicate]
    rw [show (256 : Nat) % 256 = 0 from rfl]
    rw [← List.replicate_succ]
    rw [List.length_replicate]
  have hread : ApplicationSettingsExtension.read
      (ApplicationSettingsExtension.encode ⟨[List.replicate 256 0]⟩) =
        some ⟨List.replicate 257 []⟩ := by
    rw [henc]
    simp only [ApplicationSettingsExtension.read, readU16_u16be]
    rw [show (257 : Nat) % 65536 = 257 from rfl]
    simp only [readSub, List.length_replicate, le_refl, if_true, ite_true]
    rw [List.take_replicate]
    simp only [Nat.min_self]
    rw [parseProtocols_replicate_zero]
  rw [hread]
  intro hcontra
  have h2 : (List.replicate 257 ([] : List Nat)) = [List.replicate 256 0] :=
    congrArg ApplicationSettingsExtension.protocols (Option.some.inj hcontra)
  have h3 := congrArg List.length h2
  simp only [List.length_replicate, List.length_cons, List.length_nil] at h3
  omega

/-- Claim C4 as amended: `decode(encode(x)) = x` holds for each of the six
extension codecs provided every length value fits its wire-format prefix:
each ApplicationSettings protocol is at most 255 bytes and the body at most
65535; DelegatedCredential carries at most 32767 codepoints; CompressCertificate
at most 127; the Padding length is a u16; each StatusRequest responder id is at
most 65535 bytes, as are the responder list body and the request extensions;
SCT is unconditional. (Without the bounds the law fails: see the
counterexample.) -/
theorem C4_codec_round_trip_bounded :
    (∀ ps : List (List Nat), (∀ p ∈ ps, p.length ≤ 255) →
      ((ps.map fun p => p.length % 256 :: p).flatten).length ≤ 65535 →
      ApplicationSettingsExtension.read (ApplicationSettingsExtension.encode ⟨ps⟩) =
        some ⟨ps⟩) ∧
    (∀ vs : List Nat, vs.length ≤ 32767 → (∀ v ∈ vs, v < 65536) →
      DelegatedCredentialExtension.read (DelegatedCredentialExtension.encode ⟨vs⟩) =
        some ⟨vs⟩) ∧
    (∀ algs : List Nat, algs.length ≤ 127 → (∀ v ∈ algs, v < 65536) →
      CompressCertificateExtension.read (CompressCertificateExtension.encode ⟨algs⟩) =
        some ⟨algs⟩) ∧
    (∀ n : Nat, n < 65536 →
      PaddingExtension.read (PaddingExtension.encode ⟨n⟩) = some ⟨n⟩) ∧
    (∀ (st : Nat) (ids : List (List Nat)) (re : List Nat),
      (∀ id ∈ ids, id.length ≤ 65535) →
      ((ids.map fun id => u16be id.length ++ id).flatten).length ≤ 65535 →
      re.length ≤ 65535 →
      StatusRequestExtension.read (StatusRequestExtension.encode ⟨st, ids, re⟩) =
        some ⟨st, ids, re⟩) ∧
    (SignedCertificateTimestampExtension.read
      (SignedCertificateTimestampExtension.encode ⟨⟩) = some ⟨⟩) :=
  ⟨appsettings_round_trip, delegated_round_trip, compress_round_trip,
   padding_round_trip, status_request_round_trip, sct_round_trip⟩

/-- Witness for C4 at concrete inputs: one round trip per codec, through the
amended theorem. -/
theorem C4_codec_round_trip_bounded_witness :
    ApplicationSettingsExtension.read
        (ApplicationSettingsExtension.encode ⟨[[104, 50]]⟩) = some ⟨[[104, 50]]⟩ ∧
    DelegatedCredentialExtension.read
        (DelegatedCredentialExtension.encode ⟨[1027]⟩) = some ⟨[1027]⟩ ∧
    CompressCertificateExtension.read
        (CompressCertificateExtension.encode ⟨[2]⟩) = some ⟨[2]⟩ ∧
    PaddingExtension.read (PaddingExtension.encode ⟨100⟩) = some ⟨100⟩ ∧
    StatusRequestExtension.read
        (StatusRequestExtension.encode ⟨1, [], []⟩) = some ⟨1, [], []⟩ ∧
    SignedCertificateTimestampExtension.read
        (SignedCertificateTimestampExtension.encode ⟨⟩) = some ⟨⟩ :=
  ⟨C4_codec_round_trip_bounded.1 [[104, 50]] (by decide) (by decide),
   C4_codec_round_trip_bounded.2.1 [1027] (by decide) (by decide),
   C4_codec_round_trip_bounded.2.2.1 [2] (by decide) (by decide),
   C4_codec_round_trip_bounded.2.2.2.1 100 (by decide),
   C4_codec_round_trip_bounded.2.2.2.2.1 1 [] [] (by decide) (by decide) (by decide),
   C4_codec_round_trip_bounded.2.2.2.2.2⟩

/-! ## Fingerprint cache (rustls/src/custls/state.rs) and session tracker
(src/custls/security.rs) -/

/-- Keyed lookup in an association list (`BTreeMap::get`). -/
def assocFind {α β : Type} [DecidableEq α] : List (α × β) → α → Option β
  | [], _ => none
  | (k, v) :: rest, t => if k = t then some v else assocFind rest t

/-- Keyed insert-or-replace (`BTreeMap::insert`). The map is modelled as a
key-unique association list; `BTreeMap`'s key-sorted iteration order only
influences which of several exactly-tied minimal entries an eviction scan
visits first, which no claim depends on. -/
def assocInsert {α β : Type} [DecidableEq α] : List (α × β) → α → β → List (α × β)
  | [], t, e => [(t, e)]
  | (k, v) :: rest, t, e =>
    if k = t then (t, e) :: rest else (k, v) :: assocInsert rest t e

/-- Keyed removal (`BTreeMap::remove`). -/
def assocRemove {α β : Type} [DecidableEq α] : List (α × β) → α → List (α × β)
  | [], _ => []
  | (k, v) :: rest, t => if k = t then rest else (k, v) :: assocRemove rest t

/-- Helper: looking up the inserted key finds the inserted value. -/
theorem assocFind_insert_self {α β : Type} [DecidableEq α]
    (l : List (α × β)) (t : α) (e : β) :
    assocFind (assocInsert l t e) t = some e := by
  induction l with
  | nil => simp [assocInsert, assocFind]
  | cons p rest ih =>
    obtain ⟨k, v⟩ := p
    by_cases h : k = t
    · simp [assocInsert, assocFind, h]
    · simp [assocInsert, assocFind, h, ih]

/-- Helper: inserting one key leaves every other lookup unchanged. -/
theorem assocFind_insert_other {α β : Type} [DecidableEq α]
    (l : List (α × β)) (t t' : α) (e : β) (h : t' ≠ t) :
    assocFind (assocInsert l t e) t' = assocFind l t' := by
  have h' : ¬ t = t' := Ne.symm h
  induction l with
  | nil => simp [assocInsert, assocFind, h']
  | cons p rest ih =>
    obtain ⟨k, v⟩ := p
    by_cases hk : k = t
    · subst hk
      simp [assocInsert, assocFind, h']
    · by_cases hk' : k = t'
      · simp [assocInsert, assocFind, hk, hk', h]
      · simp [assocInsert, assocFind, hk, hk', ih]

/-- Helper: insert keeps the size when the key is present and grows it by one
otherwise. -/
theorem assocInsert_length {α β : Type} [DecidableEq α]
    (l : List (α × β)) (t : α) (e : β) :
    (assocInsert l t e).length =
      if (assocFind l t).isSome then l.length else l.length + 1 := by
  induction l with
  | nil => simp [assocInsert, assocFind]
  | cons p rest ih =>
    obtain ⟨k, v⟩ := p
    by_cases h : k = t
    · simp [assocInsert, assocFind, h]
    · simp only [assocInsert, assocFind, h, if_false, if_neg h, List.length_cons, ih]
      by_cases hf : (assocFind rest t).isSome
      · simp [hf]
      · simp [hf]

/-- Helper: removing a present key shrinks the size by exactly one. -/
theorem assocRemove_length_of_found {α β : Type} [DecidableEq α]
    (l : List (α × β)) (t : α) (h : (assocFind l t).isSome) :
    (assocRemove l t).length + 1 = l.length := by
  induction l with
  | nil => simp [assocFind] at h
  | cons p rest ih =>
    obtain ⟨k, v⟩ := p
    by_cases hk : k = t
    · simp [assocRemove, hk]
    · simp only [assocFind, hk, if_neg hk] at h
      simp [assocRemove, hk, ih h]

/-- Helper: removal never grows the map. -/
theorem assocRemove_length_le {α β : Type} [DecidableEq α]
    (l : List (α × β)) (t : α) :
    (assocRemove l t).length ≤ l.length := by
  induction l with
  | nil => exact Nat.le_refl 0
  | cons p rest ih =>
    obtain ⟨k, v⟩ := p
    by_cases hk : k = t
    · rw [assocRemove, if_pos hk]
      exact Nat.le_succ_of_le (Nat.le_refl _)
    · rw [assocRemove, if_neg hk, List.length_cons, List.length_cons]
      omega

/-- Helper: removal cannot make an absent key present. -/
theorem assocFind_remove_none {α β : Type} [DecidableEq α]
    (l : List (α × β)) (t k : α) (h : assocFind l t = none) :
    assocFind (assocRemove l k) t = none := by
  induction l with
  | nil => simp [assocRemove, assocFind]
  | cons p rest ih =>
    obtain ⟨k', v⟩ := p
    have hkt : ¬ k' = t := by
      intro hkt
      rw [assocFind, if_pos hkt] at h
      exact Option.noConfusion h
    have hrest : assocFind rest t = none := by
      rwa [assocFind, if_neg hkt] at h
    by_cases hk : k' = k
    · rw [assocRemove, if_pos hk]
      exact hrest
    · rw [assocRemove, if_neg hk, assocFind, if_neg hkt]
      exact ih hrest

/-- Helper: a stored pair's key is found. -/
theorem assocFind_mem_isSome {α β : Type} [DecidableEq α]
    (l : List (α × β)) (p : α × β) (h : p ∈ l) :
    (assocFind l p.1).isSome := by
  induction l with
  | nil => simp at h
  | cons q rest ih =>
    obtain ⟨k, v⟩ := q
    rcases List.mem_cons.mp h with heq | hmem
    · subst heq
      simp [assocFind]
    · by_cases hk : k = p.1
      · simp [assocFind, hk]
      · simp only [assocFind, if_neg hk]
        exact ih hmem

/-- Target server key (state.rs `TargetKey`). -/
structure TargetKey where
  host : String
  port : Nat
  deriving DecidableEq, Repr

/-- Cached ClientHello configuration snapshot (state.rs `ClientHelloConfig`);
cipher suites, named groups and signature schemes appear as their u16
codepoints, and the `extension_data` map as an association list. -/
structure ClientHelloConfig where
  template : BrowserTemplate
  cipher_suites : List Nat
  extension_order : List ExtensionType
  extension_data : List (ExtensionType × List Nat)
  grease_cipher_positions : List Nat
  grease_extension_positions : List Nat
  padding_length : Nat
  random_seed : Nat
  supported_groups : List Nat
  signature_algorithms : List Nat
  deriving DecidableEq, Repr

/-- Cache entry (state.rs `FingerprintEntry`); the f64 `reputation_score` is
modelled as `ℚ` (the code only ever stores exact ratios and 0.5), and the
`Instant` timestamp as a logical clock value. -/
structure FingerprintEntry where
  config : ClientHelloConfig
  success_count : Nat
  failure_count : Nat
  reputation_score : ℚ
  last_used : Nat
  previous_grease_values : List Nat
  previous_padding_lengths : List Nat
  deriving DecidableEq, Repr

/-- Embedding of `FingerprintEntry::new` (state.rs lines 150-160): neutral
reputation 0.5, `last_used = Instant::now()` (the current clock). -/
def FingerprintEntry.new (config : ClientHelloConfig) (now : Nat) : FingerprintEntry :=
  ⟨config, 0, 0, 1/2, now, [], []⟩

/-- Embedding of `FingerprintEntry::update_reputation` (state.rs lines
177-184). -/
def FingerprintEntry.update_reputation (e : FingerprintEntry) : FingerprintEntry :=
  let total := e.success_count + e.failure_count
  if 0 < total then
    { e with reputation_score := (e.success_count : ℚ) / (total : ℚ) }
  else
    { e with reputation_score := 1/2 }

/-- Embedding of `FingerprintEntry::touch` (state.rs lines 188-190). -/
def FingerprintEntry.touch (e : FingerprintEntry) (now : Nat) : FingerprintEntry :=
  { e with last_used := now }

/-- Fingerprint cache manager (state.rs `FingerprintManager`). -/
structure FingerprintManager where
  cache : List (TargetKey × FingerprintEntry)
  max_size : Nat
  deriving DecidableEq, Repr

/-- Embedding of `FingerprintManager::new` (state.rs lines 281-286). -/
def FingerprintManager.new (max_size : Nat) : FingerprintManager := ⟨[], max_size⟩

/-- Embedding of `FingerprintManager::size` (state.rs lines 289-291). -/
def FingerprintManager.size (m : FingerprintManager) : Nat := m.cache.length

/-- The scan loop of `evict_lowest_reputation` (state.rs lines 353-375),
carrying `(lowest_key, lowest_score, oldest_time)`. The source seeds the
scan with the sentinels `f64::MAX` and `Instant::now()`, which every stored
entry beats (scores are finite ratios and stored timestamps are never in the
future), so the accumulator is an `Option` that any first entry replaces. -/
def evictFold : List (TargetKey × FingerprintEntry) → Option (TargetKey × ℚ × Nat) →
    Option (TargetKey × ℚ × Nat)
  | [], acc => acc
  | (k, e) :: rest, acc =>
    match acc with
    | none => evictFold rest (some (k, e.reputation_score, e.last_used))
    | some (bk, bs, bt) =>
      if e.reputation_score < bs ∨ (e.reputation_score = bs ∧ e.last_used < bt) then
        evictFold rest (some (k, e.reputation_score, e.last_used))
      else
        evictFold rest (some (bk, bs, bt))

/-- Embedding of `FingerprintManager::evict_lowest_reputation` (state.rs
lines 346-381). -/
def FingerprintManager.evict_lowest_reputation (m : FingerprintManager) :
    FingerprintManager :=
  if m.cache.isEmpty then m
  else
    match evictFold m.cache none with
    | some (k, _, _) => { m with cache := assocRemove m.cache k }
    | none => m

/-- Embedding of `FingerprintManager::record_result` (state.rs lines
439-472): evict when inserting a new key into a full cache, then create or
update the entry, bump the count, recompute reputation, touch, and overwrite
the stored config. -/
def FingerprintManager.record_result (m : FingerprintManager) (now : Nat)
    (target : TargetKey) (config : ClientHelloConfig) (success : Bool) :
    FingerprintManager :=
  let entry_exists := (assocFind m.cache target).isSome
  let m1 :=
    if ¬entry_exists ∧ m.cache.length ≥ m.max_size then m.evict_lowest_reputation else m
  let entry0 :=
    match assocFind m1.cache target with
    | some e => e
    | none => FingerprintEntry.new config now
  let entry1 :=
    if success then { entry0 with success_count := entry0.success_count + 1 }
    else { entry0 with failure_count := entry0.failure_count + 1 }
  let entry2 := entry1.update_reputation
  let entry3 := entry2.touch now
  let entry4 := { entry3 with config := config }
  { m1 with cache := assocInsert m1.cache target entry4 }

/-- Embedding of `FingerprintManager::get_working_fingerprint` (state.rs
lines 401-417): touch the entry and return a clone of its config. The mutated
manager is returned explicitly. -/
def FingerprintManager.get_working_fingerprint (m : FingerprintManager) (now : Nat)
    (target : TargetKey) : Option ClientHelloConfig × FingerprintManager :=
  match assocFind m.cache target with
  | some e => (some e.config, { m with cache := assocInsert m.cache target (e.touch now) })
  | none => (none, m)

/-- Embedding of `FingerprintManager::get_stats` (state.rs lines 484-488). -/
def FingerprintManager.get_stats (m : FingerprintManager) (target : TargetKey) :
    Option (Nat × Nat × ℚ) :=
  (assocFind m.cache target).map fun e =>
    (e.success_count, e.failure_count, e.reputation_score)

/-- Embedding of `FingerprintManager::invalidate_target` (state.rs lines
317-319). -/
def FingerprintManager.invalidate_target (m : FingerprintManager) (target : TargetKey) :
    FingerprintManager :=
  { m with cache := assocRemove m.cache target }

/-- Embedding of `FingerprintManager::clear_cache` (state.rs lines 304-306). -/
def FingerprintManager.clear_cache (m : FingerprintManager) : FingerprintManager :=
  { m with cache := [] }

/-- One cache operation of claim C2. -/
inductive CacheOp where
  | record (target : TargetKey) (config : ClientHelloConfig) (success : Bool)
  | invalidate (target : TargetKey)
  | clear

/-- Run a sequence of cache operations from a starting manager, advancing the
logical clock by one per operation. -/
def runCacheOps (m : FingerprintManager) (now : Nat) : List CacheOp → FingerprintManager
  | [] => m
  | op :: rest =>
    let m2 :=
      match op with
      | CacheOp.record t c s => m.record_result now t c s
      | CacheOp.invalidate t => m.invalidate_target t
      | CacheOp.clear => m.clear_cache
    runCacheOps m2 (now + 1) rest

-- eviction scan: victim corresponds to an element and has minimal score
/-- Helper: the eviction scan's result has minimal reputation among the
scanned entries and the accumulator. -/
theorem evictFold_min :
    ∀ (l : List (TargetKey × FingerprintEntry)) (acc : Option (TargetKey × ℚ × Nat))
      (k : TargetKey) (s : ℚ) (t : Nat),
      evictFold l acc = some (k, s, t) →
      (∀ p ∈ l, s ≤ p.2.reputation_score) ∧
      (∀ a, acc = some a → s ≤ a.2.1) := by
  intro l
  induction l with
  | nil =>
    intro acc k s t h
    refine ⟨by simp, fun a ha => ?_⟩
    rw [evictFold] at h
    rw [ha] at h
    rw [Option.some.inj h]
  | cons p rest ih =>
    intro acc k s t h
    obtain ⟨k', e⟩ := p
    match acc with
    | none =>
      rw [evictFold] at h
      obtain ⟨hrest, hacc⟩ := ih _ k s t h
      have hse : s ≤ e.reputation_score := hacc _ rfl
      refine ⟨fun q hq => ?_, fun a ha => Option.noConfusion ha⟩
      rcases List.mem_cons.mp hq with heq | hmem
      · rw [heq]
        exact hse
      · exact hrest q hmem
    | some (bk, bs, bt) =>
      rw [evictFold] at h
      by_cases hcond : e.reputation_score < bs ∨
          (e.reputation_score = bs ∧ e.last_used < bt)
      · rw [if_pos hcond] at h
        obtain ⟨hrest, hacc⟩ := ih _ k s t h
        have hse : s ≤ e.reputation_score := hacc _ rfl
        refine ⟨fun q hq => ?_, fun a ha => ?_⟩
        · rcases List.mem_cons.mp hq with heq | hmem
          · rw [heq]
            exact hse
          · exact hrest q hmem
        · have hbs : s ≤ bs := by
            rcases hcond with hlt | ⟨heq, _⟩
            · exact le_trans hse (le_of_lt hlt)
            · rw [← heq]
              exact hse
          obtain rfl : a = (bk, bs, bt) := (Option.some.inj ha).symm
          exact hbs
      · rw [if_neg hcond] at h
        obtain ⟨hrest, hacc⟩ := ih _ k s t h
        have hbs : s ≤ bs := hacc _ rfl
        push_neg at hcond
        obtain ⟨hge, _⟩ := hcond
        refine ⟨fun q hq => ?_, fun a ha => ?_⟩
        · rcases List.mem_cons.mp hq with heq | hmem
          · rw [heq]
            exact le_trans hbs hge
          · exact hrest q hmem
        · obtain rfl : a = (bk, bs, bt) := (Option.some.inj ha).symm
          exact hbs

/-- Helper: the eviction scan's result comes from the scanned entries or the
accumulator. -/
theorem evictFold_mem :
    ∀ (l : List (TargetKey × FingerprintEntry)) (acc : Option (TargetKey × ℚ × Nat))
      (r : TargetKey × ℚ × Nat),
      evictFold l acc = some r →
      acc = some r ∨ ∃ p ∈ l, r = (p.1, p.2.reputation_score, p.2.last_used) := by
  intro l
  induction l with
  | nil =>
    intro acc r h
    exact Or.inl h
  | cons p rest ih =>
    intro acc r h
    obtain ⟨k, e⟩ := p
    match acc with
    | none =>
      rw [evictFold] at h
      rcases ih _ r h with hacc | ⟨q, hq, hr⟩
      · right
        exact ⟨(k, e), by simp, (Option.some.inj hacc).symm⟩
      · right
        exact ⟨q, by simp [hq], hr⟩
    | some (bk, bs, bt) =>
      rw [evictFold] at h
      by_cases hcond : e.reputation_score < bs ∨
          (e.reputation_score = bs ∧ e.last_used < bt)
      · rw [if_pos hcond] at h
        rcases ih _ r h with hacc | ⟨q, hq, hr⟩
        · right
          exact ⟨(k, e), by simp, (Option.some.inj hacc).symm⟩
        · right
          exact ⟨q, by simp [hq], hr⟩
      · rw [if_neg hcond] at h
        rcases ih _ r h with hacc | ⟨q, hq, hr⟩
        · left
          exact hacc
        · right
          exact ⟨q, by simp [hq], hr⟩

/-- Helper: a seeded eviction scan always returns a victim. -/
theorem evictFold_some_acc :
    ∀ (l : List (TargetKey × FingerprintEntry)) (a : TargetKey × ℚ × Nat),
      ∃ r, evictFold l (some a) = some r := by
  intro l
  induction l with
  | nil => intro a; exact ⟨a, rfl⟩
  | cons p rest ih =>
    intro a
    obtain ⟨k, e⟩ := p
    obtain ⟨bk, bs, bt⟩ := a
    rw [evictFold]
    by_cases hcond : e.reputation_score < bs ∨
        (e.reputation_score = bs ∧ e.last_used < bt)
    · rw [if_pos hcond]
      exact ih _
    · rw [if_neg hcond]
      exact ih _

/-- Helper: eviction does not change the configured maximum size. -/
theorem evict_max_size (m : FingerprintManager) :
    m.evict_lowest_reputation.max_size = m.max_size := by
  unfold FingerprintManager.evict_lowest_reputation
  split
  · rfl
  · split <;> rfl

/-- Helper: evicting from a nonempty cache removes exactly one entry. -/
theorem evict_size (m : FingerprintManager) (h : m.cache ≠ []) :
    m.evict_lowest_reputation.cache.length + 1 = m.cache.length := by
  unfold FingerprintManager.evict_lowest_reputation
  rw [if_neg (by simpa [List.isEmpty_iff] using h)]
  match m.cache, h with
  | (k, e) :: rest, _ =>
    obtain ⟨r, hr⟩ := evictFold_some_acc rest (k, e.reputation_score, e.last_used)
    have hfold : evictFold ((k, e) :: rest) none = some r := by
      rw [evictFold]
      exact hr
    rw [hfold]
    obtain ⟨rk, rs, rt⟩ := r
    rcases evictFold_mem _ _ _ hfold with hacc | ⟨q, hq, hproj⟩
    · exact Option.noConfusion hacc
    · have : (assocFind ((k, e) :: rest) rk).isSome := by
        have := assocFind_mem_isSome ((k, e) :: rest) q hq
        have hk : q.1 = rk := congrArg Prod.fst hproj ▸ rfl
        rw [← hk]
        exact this
      exact assocRemove_length_of_found _ _ this

/-- Helper: eviction cannot make an absent key present. -/
theorem evict_find_none (m : FingerprintManager) (t : TargetKey)
    (h : assocFind m.cache t = none) :
    assocFind m.evict_lowest_reputation.cache t = none := by
  unfold FingerprintManager.evict_lowest_reputation
  split
  · exact h
  · split
    · exact assocFind_remove_none _ _ _ h
    · exact h

/-- Helper: recording never changes the configured maximum size. -/
theorem record_result_max_size (m : FingerprintManager) (now : Nat) (t : TargetKey)
    (c : ClientHelloConfig) (s : Bool) :
    (m.record_result now t c s).max_size = m.max_size := by
  simp only [FingerprintManager.record_result]
  split
  · exact evict_max_size m
  · rfl

/-- Helper: with a positive maximum, recording preserves the size bound. -/
theorem record_result_size (m : FingerprintManager) (now : Nat) (t : TargetKey)
    (c : ClientHelloConfig) (s : Bool) (hmax : 1 ≤ m.max_size)
    (h : m.cache.length ≤ m.max_size) :
    (m.record_result now t c s).cache.length ≤ m.max_size := by
  simp only [FingerprintManager.record_result]
  by_cases hex : (assocFind m.cache t).isSome
  · rw [if_neg (by simp [hex])]
    rw [assocInsert_length, if_pos hex]
    exact h
  · by_cases hfull : m.cache.length ≥ m.max_size
    · rw [if_pos (by simp [hex, hfull])]
      have hne : m.cache ≠ [] := by
        intro hnil
        rw [hnil] at hfull
        simp only [List.length_nil] at hfull
        omega
      have hev := evict_size m hne
      have hfind : assocFind m.evict_lowest_reputation.cache t = none :=
        evict_find_none m t (Option.not_isSome_iff_eq_none.mp hex)
      rw [assocInsert_length, if_neg (by simp [hfind])]
      omega
    · rw [if_neg (by simp [hfull])]
      rw [assocInsert_length, if_neg hex]
      omega

/-- Helper: invalidation preserves the size bound. -/
theorem invalidate_size (m : FingerprintManager) (t : TargetKey)
    (h : m.cache.length ≤ m.max_size) :
    (m.invalidate_target t).cache.length ≤ m.max_size :=
  le_trans (assocRemove_length_le m.cache t) h

/-- Helper: any operation sequence preserves the size bound and the
configured maximum. -/
theorem runCacheOps_size :
    ∀ (ops : List CacheOp) (m : FingerprintManager) (now : Nat),
      1 ≤ m.max_size → m.cache.length ≤ m.max_size →
      (runCacheOps m now ops).max_size = m.max_size ∧
        (runCacheOps m now ops).cache.length ≤ m.max_size := by
  intro ops
  induction ops with
  | nil => intro m now _ h; exact ⟨rfl, h⟩
  | cons op rest ih =>
    intro m now hmax h
    have step : ∀ (m2 : FingerprintManager), m2.max_size = m.max_size →
        m2.cache.length ≤ m.max_size →
        runCacheOps m now (op :: rest) = runCacheOps m2 (now + 1) rest →
        (runCacheOps m now (op :: rest)).max_size = m.max_size ∧
          (runCacheOps m now (op :: rest)).cache.length ≤ m.max_size := by
      intro m2 hm2max hm2size hrun
      rw [hrun]
      have hih := ih m2 (now + 1) (by rw [hm2max]; exact hmax)
        (by rw [hm2max]; exact hm2size)
      exact ⟨by rw [hih.1, hm2max], by rw [← hm2max]; exact hih.2⟩
    match op with
    | CacheOp.record t c s =>
      exact step (m.record_result now t c s) (record_result_max_size m now t c s)
        (record_result_size m now t c s hmax h) rfl
    | CacheOp.invalidate t =>
      exact step (m.invalidate_target t) rfl (invalidate_size m t h) rfl
    | CacheOp.clear =>
      exact step m.clear_cache rfl (by simp [FingerprintManager.clear_cache]) rfl

/-- A concrete configuration for witnesses and counterexamples. -/
def testConfig : ClientHelloConfig :=
  ⟨BrowserTemplate.Chrome130, [], [], [], [], [], 0, 0, [], []⟩

/-- Claim C2 as amended: for every positive max_size and every operation
sequence on a fresh manager the cache size stays at or below max_size after
every step (for max_size = 0 one entry is kept: see the counterexample); and
whenever the eviction scan selects a victim, that victim is a stored entry
and no entry in the cache has strictly lower reputation_score. -/
theorem C2_cache_bound_and_eviction_minimality :
    (∀ (max : Nat) (ops : List CacheOp), 1 ≤ max →
      (runCacheOps (FingerprintManager.new max) 0 ops).size ≤ max) ∧
    (∀ (m : FingerprintManager) (k : TargetKey) (s : ℚ) (t : Nat),
      evictFold m.cache none = some (k, s, t) →
      (∃ p ∈ m.cache, p.1 = k ∧ p.2.reputation_score = s) ∧
      ∀ p ∈ m.cache, ¬ (p.2.reputation_score < s)) := by
  constructor
  · intro max ops hmax
    exact (runCacheOps_size ops (FingerprintManager.new max) 0 hmax (by simp [FingerprintManager.new])).2
  · intro m k s t h
    constructor
    · rcases evictFold_mem _ _ _ h with hacc | ⟨q, hq, hproj⟩
      · exact Option.noConfusion hacc
      · refine ⟨q, hq, ?_, ?_⟩
        · exact (congrArg Prod.fst hproj).symm
        · exact (congrArg (fun r => r.2.1) hproj).symm
    · intro p hp
      exact not_lt_of_le ((evictFold_min m.cache none k s t h).1 p hp)

/-- Counterexample for C2 as stated: with max_size 0 a single record_result
leaves one cached entry, exceeding max_size (record evicts from the empty
cache, a no-op, then inserts). -/
theorem C2_counterexample :
    ¬ ((runCacheOps (FingerprintManager.new 0) 0
        [CacheOp.record ⟨"example.com", 443⟩ testConfig true]).size ≤ 0) := by
  have h : (runCacheOps (FingerprintManager.new 0) 0
      [CacheOp.record ⟨"example.com", 443⟩ testConfig true]).size = 1 := rfl
  rw [h]
  omega

/-- Witness for C2 at a concrete input: one record into a size-1 cache stays
within the bound. -/
theorem C2_cache_bound_and_eviction_minimality_witness :
    (runCacheOps (FingerprintManager.new 1)
        0 [CacheOp.record ⟨"example.com", 443⟩ testConfig true]).size ≤ 1 :=
  C2_cache_bound_and_eviction_minimality.1 1
    [CacheOp.record ⟨"example.com", 443⟩ testConfig true] (by omega)

/-- Run a sequence of `record_result` calls on one fixed target, advancing
the logical clock by one per call. -/
def runRecordSeq (m : FingerprintManager) (now : Nat) (t : TargetKey) :
    List (ClientHelloConfig × Bool) → FingerprintManager
  | [] => m
  | (c, s) :: rest => runRecordSeq (m.record_result now t c s) (now + 1) t rest

/-- The reputation formula of `update_reputation`: successes over total, 0.5
when there is no data. -/
def reputationOf (s f : Nat) : ℚ :=
  if 0 < s + f then (s : ℚ) / (((s + f : Nat) : ℚ)) else 1/2

/-- The entry stored for the target by one `record_result` call, starting
from entry state `e`: count bump, reputation recomputation, touch, config
overwrite (state.rs lines 454-471). -/
def recordedEntry (e : FingerprintEntry) (c : ClientHelloConfig) (now : Nat)
    (s : Bool) : FingerprintEntry :=
  { (if s then { e with success_count := e.success_count + 1 }
     else { e with failure_count := e.failure_count + 1 }).update_reputation.touch now
    with config := c }

/-- Helper: field-level description of the recorded entry. -/
theorem recordedEntry_fields (e : FingerprintEntry) (c : ClientHelloConfig)
    (now : Nat) (s : Bool) :
    recordedEntry e c now s =
      ⟨c, e.success_count + (if s then 1 else 0), e.failure_count + (if s then 0 else 1),
        reputationOf (e.success_count + (if s then 1 else 0))
          (e.failure_count + (if s then 0 else 1)),
        now, e.previous_grease_values, e.previous_padding_lengths⟩ := by
  cases s with
  | true =>
    unfold recordedEntry FingerprintEntry.update_reputation FingerprintEntry.touch
      reputationOf
    rw [if_pos rfl, if_pos rfl, if_pos rfl]
    simp only []
    rw [if_pos (show (0:Nat) < e.success_count + 1 + e.failure_count from by omega),
      if_pos (show (0:Nat) < e.success_count + 1 + (e.failure_count + 0) from by omega)]
    simp
  | false =>
    unfold recordedEntry FingerprintEntry.update_reputation FingerprintEntry.touch
      reputationOf
    rw [if_neg (Bool.false_ne_true), if_neg (Bool.false_ne_true),
      if_neg (Bool.false_ne_true)]
    simp only []
    rw [if_pos (show (0:Nat) < e.success_count + (e.failure_count + 1) from by omega),
      if_pos (show (0:Nat) < e.success_count + 0 + (e.failure_count + 1) from by omega)]
    simp

/-- Helper: recording on a present target rewrites exactly that entry. -/
theorem record_result_find_self (m : FingerprintManager) (now : Nat) (t : TargetKey)
    (c : ClientHelloConfig) (s : Bool) (e : FingerprintEntry)
    (h : assocFind m.cache t = some e) :
    assocFind (m.record_result now t c s).cache t = some (recordedEntry e c now s) := by
  simp only [FingerprintManager.record_result]
  rw [if_neg (by simp [h])]
  rw [h]
  rw [assocFind_insert_self]
  rfl

/-- Helper: recording on an absent target creates the entry from a fresh
neutral one. -/
theorem record_result_find_new (m : FingerprintManager) (now : Nat) (t : TargetKey)
    (c : ClientHelloConfig) (s : Bool)
    (h : assocFind m.cache t = none) :
    assocFind (m.record_result now t c s).cache t =
      some (recordedEntry (FingerprintEntry.new c now) c now s) := by
  simp only [FingerprintManager.record_result]
  by_cases hfull : m.cache.length ≥ m.max_size
  · rw [if_pos (by simp [h, hfull])]
    rw [evict_find_none m t h]
    rw [assocFind_insert_self]
    rfl
  · rw [if_neg (by simp [hfull])]
    rw [h]
    rw [assocFind_insert_self]
    rfl

/-- Number of successful calls in a record sequence. -/
def countTrue (ops : List (ClientHelloConfig × Bool)) : Nat :=
  ops.countP (fun p => p.2)

/-- Number of failed calls in a record sequence. -/
def countFalse (ops : List (ClientHelloConfig × Bool)) : Nat :=
  ops.countP (fun p => !p.2)

/-- Helper: successes and failures partition the calls. -/
theorem countTrue_add_countFalse (ops : List (ClientHelloConfig × Bool)) :
    countTrue ops + countFalse ops = ops.length := by
  induction ops with
  | nil => rfl
  | cons p rest ih =>
    unfold countTrue countFalse at ih ⊢
    rw [List.countP_cons, List.countP_cons, List.length_cons]
    cases hp : p.2 <;> simp [hp] <;> omega

/-- Helper: running further calls on a tracked target adds the call counts
to the entry's counters and keeps the reputation at the exact ratio. -/
theorem runRecordSeq_stats :
    ∀ (ops : List (ClientHelloConfig × Bool)) (m : FingerprintManager) (now : Nat)
      (t : TargetKey) (e : FingerprintEntry),
      assocFind m.cache t = some e →
      e.reputation_score = reputationOf e.success_count e.failure_count →
      (runRecordSeq m now t ops).get_stats t =
        some (e.success_count + countTrue ops, e.failure_count + countFalse ops,
          reputationOf (e.success_count + countTrue ops)
            (e.failure_count + countFalse ops)) := by
  intro ops
  induction ops with
  | nil =>
    intro m now t e hfind hrep
    simp [runRecordSeq, FingerprintManager.get_stats, hfind, countTrue, countFalse, hrep]
  | cons op rest ih =>
    intro m now t e hfind hrep
    obtain ⟨c, s⟩ := op
    rw [runRecordSeq]
    have hfind2 := record_result_find_self m now t c s e hfind
    rw [recordedEntry_fields] at hfind2
    have hstats := ih (m.record_result now t c s) (now + 1) t _ hfind2 rfl
    rw [hstats]
    have h1 : e.success_count + (if s then 1 else 0) + countTrue rest =
        e.success_count + countTrue ((c, s) :: rest) := by
      cases s <;> simp [countTrue, List.countP_cons] <;> omega
    have h2 : e.failure_count + (if s then 0 else 1) + countFalse rest =
        e.failure_count + countFalse ((c, s) :: rest) := by
      cases s <;> simp [countFalse, List.countP_cons] <;> omega
    rw [h1, h2]

/-- Claim C5 as amended: for every NONEMPTY sequence of record_result(t,c,s)
calls from a fresh manager, get_stats(t) returns exactly the number of
successful calls, the number of failed calls, and a reputation_score equal to
successes/(successes+failures) exactly — hence within 1e-4. (For the empty
sequence get_stats returns none, not zero counts: see the counterexample.) -/
theorem C5_record_result_stats_amended :
    ∀ (max : Nat) (t : TargetKey) (ops : List (ClientHelloConfig × Bool)),
      ops ≠ [] →
      (runRecordSeq (FingerprintManager.new max) 0 t ops).get_stats t =
        some (countTrue ops, countFalse ops,
          ((countTrue ops : ℚ) / (((countTrue ops + countFalse ops : Nat)) : ℚ))) := by
  intro max t ops hne
  match ops with
  | [] => exact absurd rfl hne
  | (c, s) :: rest =>
    rw [runRecordSeq]
    have hfind1 := record_result_find_new (FingerprintManager.new max) 0 t c s rfl
    rw [recordedEntry_fields] at hfind1
    have hstats := runRecordSeq_stats rest _ 1 t _ hfind1 rfl
    rw [hstats]
    have h1 : (FingerprintEntry.new c 0).success_count + (if s then 1 else 0) +
        countTrue rest = countTrue ((c, s) :: rest) := by
      cases s <;> simp [FingerprintEntry.new, countTrue, List.countP_cons] <;> omega
    have h2 : (FingerprintEntry.new c 0).failure_count + (if s then 0 else 1) +
        countFalse rest = countFalse ((c, s) :: rest) := by
      cases s <;> simp [FingerprintEntry.new, countFalse, List.countP_cons] <;> omega
    rw [h1, h2]
    have hpos : 0 < countTrue ((c, s) :: rest) + countFalse ((c, s) :: rest) := by
      rw [countTrue_add_countFalse]
      simp
    rw [reputationOf, if_pos hpos]

/-- Counterexample for C5 as stated: after the empty call sequence get_stats
returns none rather than counts (0, 0) with reputation 0.5. -/
theorem C5_counterexample :
    (runRecordSeq (FingerprintManager.new 5) 0 ⟨"example.com", 443⟩ []).get_stats
      ⟨"example.com", 443⟩ = none := rfl

/-- Witness for C5 at a concrete input: two successes and one failure give
counts (2, 1) and reputation 2/3. -/
theorem C5_record_result_stats_amended_witness :
    (runRecordSeq (FingerprintManager.new 5) 0 ⟨"example.com", 443⟩
        [(testConfig, true), (testConfig, true), (testConfig, false)]).get_stats
      ⟨"example.com", 443⟩ = some (2, 1, (2 : ℚ) / ((3 : Nat) : ℚ)) := by
  have h := C5_record_result_stats_amended 5 ⟨"example.com", 443⟩
    [(testConfig, true), (testConfig, true), (testConfig, false)] (by simp)
  simpa [countTrue, countFalse, List.countP_cons] using h

/-- Claim C10: get_working_fingerprint(t) leaves every field of the entry for
t other than last_used unchanged (counts, reputation, stored config and both
anti-repetition queues), returns a clone of the stored config when the entry
exists (and changes nothing when it does not), leaves all entries for other
targets untouched, and keeps the configured maximum size. -/
theorem C10_get_working_fingerprint_frame (m : FingerprintManager) (now : Nat)
    (t : TargetKey) :
    (∀ t', t' ≠ t →
      assocFind ((m.get_working_fingerprint now t).2).cache t' = assocFind m.cache t') ∧
    (match assocFind m.cache t with
     | some e =>
        (m.get_working_fingerprint now t).1 = some e.config ∧
        assocFind ((m.get_working_fingerprint now t).2).cache t =
          some { e with last_used := now }
     | none => m.get_working_fingerprint now t = (none, m)) ∧
    ((m.get_working_fingerprint now t).2).max_size = m.max_size := by
  cases hfind : assocFind m.cache t with
  | none =>
    refine ⟨?_, ?_, ?_⟩
    · intro t' _
      rw [FingerprintManager.get_working_fingerprint, hfind]
    · show m.get_working_fingerprint now t = (none, m)
      rw [FingerprintManager.get_working_fingerprint, hfind]
    · rw [FingerprintManager.get_working_fingerprint, hfind]
  | some e =>
    refine ⟨?_, ?_, ?_⟩
    · intro t' ht'
      rw [FingerprintManager.get_working_fingerprint, hfind]
      exact assocFind_insert_other m.cache t t' (e.touch now) ht'
    · show (m.get_working_fingerprint now t).1 = some e.config ∧
        assocFind ((m.get_working_fingerprint now t).2).cache t =
          some { e with last_used := now }
      constructor
      · rw [FingerprintManager.get_working_fingerprint, hfind]
      · rw [FingerprintManager.get_working_fingerprint, hfind]
        exact assocFind_insert_self m.cache t (e.touch now)
    · rw [FingerprintManager.get_working_fingerprint, hfind]

/-- Witness for C10 at a concrete input: a lookup for one target leaves a
different target's entry unchanged. -/
theorem C10_get_working_fingerprint_frame_witness :
    assocFind (((FingerprintManager.new 3).get_working_fingerprint 7
        ⟨"example.com", 443⟩).2).cache ⟨"test.com", 443⟩ =
      assocFind (FingerprintManager.new 3).cache ⟨"test.com", 443⟩ :=
  (C10_get_working_fingerprint_frame (FingerprintManager.new 3) 7
    ⟨"example.com", 443⟩).1 ⟨"test.com", 443⟩ (by decide)


/-- Lexicographic order on session-id byte vectors — the `Ord` instance of
`Vec<u8>` that `BTreeMap<SessionId, _>` sorts by. -/
def sidLt : List Nat → List Nat → Bool
  | [], [] => false
  | [], _ :: _ => true
  | _ :: _, [] => false
  | a :: as2, b :: bs => if a < b then true else if a = b then sidLt as2 bs else false

/-- Per-session state (security.rs `SessionState`). -/
structure SessionState where
  config : ClientHelloConfig
  ticket : Option (List Nat)
  established : Bool
  resume_count : Nat
  deriving DecidableEq, Repr

/-- Embedding of `SessionState::new` (security.rs lines 196-203). -/
def SessionState.new (config : ClientHelloConfig) : SessionState :=
  ⟨config, none, false, 0⟩

/-- Session tracker (security.rs `SessionStateTracker`): a `BTreeMap` from
session id to state, modelled as a key-unique association list. -/
structure SessionStateTracker where
  sessions : List (List Nat × SessionState)
  max_sessions : Nat
  deriving DecidableEq, Repr

/-- Embedding of `SessionStateTracker::new` (security.rs lines 253-258). -/
def SessionStateTracker.new (max_sessions : Nat) : SessionStateTracker :=
  ⟨[], max_sessions⟩

/-- The tracker's `self.sessions.keys().next()`: for a `BTreeMap` this is the
MINIMUM key in the `Vec<u8>` lexicographic order, not the oldest-inserted
key; computed here as the minimum over the association list. -/
def minSessionKey : List (List Nat × SessionState) → Option (List Nat)
  | [] => none
  | (k, _) :: rest =>
    match minSessionKey rest with
    | none => some k
    | some k2 => if sidLt k2 k then some k2 else some k

/-- Embedding of `SessionStateTracker::record_session` (security.rs lines
282-294): at capacity, remove the entry whose key `keys().next()` yields —
the smallest session id — then insert the new session. -/
def SessionStateTracker.record_session (tr : SessionStateTracker)
    (session_id : List Nat) (config : ClientHelloConfig) : SessionStateTracker :=
  let tr1 :=
    if tr.sessions.length ≥ tr.max_sessions ∧
        ¬ (assocFind tr.sessions session_id).isSome then
      match minSessionKey tr.sessions with
      | some first_key => { tr with sessions := assocRemove tr.sessions first_key }
      | none => tr
    else tr
  { tr1 with sessions := assocInsert tr1.sessions session_id (SessionState.new config) }

/-- Embedding of `SessionStateTracker::get_session_config` (security.rs
lines 308-310). -/
def SessionStateTracker.get_session_config (tr : SessionStateTracker)
    (session_id : List Nat) : Option ClientHelloConfig :=
  (assocFind tr.sessions session_id).map (fun st => st.config)

/-- Claim C3 evaluated at the failing input: a tracker with max_sessions = 2
records sessions [3], then [1], then [2]. The spec (and the code's own doc
comments) promise oldest-first eviction, which would evict [3]; the code
instead removes `keys().next()` of the `BTreeMap` — the smallest id, [1] —
so after the third record [1] is gone while the older [3] survives. -/
theorem C3_evicts_smallest_not_oldest :
    ((((SessionStateTracker.new 2).record_session [3] testConfig).record_session
        [1] testConfig).record_session [2] testConfig).get_session_config [1] = none ∧
    ((((SessionStateTracker.new 2).record_session [3] testConfig).record_session
        [1] testConfig).record_session [2] testConfig).get_session_config [3] =
      some testConfig ∧
    ((((SessionStateTracker.new 2).record_session [3] testConfig).record_session
        [1] testConfig).record_session [2] testConfig).get_session_config [2] =
      some testConfig := by
  refine ⟨?_, ?_, ?_⟩ <;> rfl
